import Mathlib

/-!
Verification of the per-chat music queue and playback core of the musicbot
repository (`core/queue.py`, `core/player.py`, `core/calls.py`,
`handlers/control.py`), embedded shallowly: every operation below is a pure
function on the slice of the module-level dictionaries belonging to one
fixed chat id, and the awaited external collaborators (ffprobe, pytgcalls)
are parameterised by their success/failure outcomes.
-/

namespace MusicBot

/-- Embedded from the `QueueItem` dataclass of `queue.py`: `song_info` (the
untyped info dict, represented by its identity), `audio_file`,
`requested_by`, `requested_at` (the `datetime.now()` timestamp, represented
as a natural number), `message_id`. -/
structure QueueItem where
  songInfo : String
  audioFile : String
  requestedBy : Int
  requestedAt : Nat
  messageId : Option Int
deriving Repr, DecidableEq

/-- Embedded from `player.py`: one entry of `Player.playing_states`
(`{'is_playing': bool, 'current_track': song_info, 'position': int}`). -/
structure PlayerChatState where
  isPlaying : Bool
  currentTrack : Option String
  position : Nat
deriving Repr, DecidableEq

/-- Embedded from `calls.py`: one entry of `CallManager.active_chats`
(`{'playing': bool, 'current_song': song_info, 'queue': []}`; the `queue`
field of that dict is never read by the code and is omitted). -/
structure CallChatState where
  playing : Bool
  currentSong : Option String
deriving Repr, DecidableEq

/-- The configuration slice read by the queue core (`config.py`):
`MAX_QUEUE_SIZE` and `AUTO_LEAVE_VC`. `AUTO_LEAVE_DELAY` only feeds
`asyncio.sleep` and has no effect on the state transitions. -/
structure Config where
  maxQueueSize : Nat
  autoLeaveVC : Bool

/-- Success/failure outcomes of the awaited external collaborators:
ffprobe validation (`AudioManager.validate_audio_file`), and the pytgcalls
`join_group_call` / `change_stream` / `leave_group_call` / `pause_stream`
calls. The code branches only on success or exception of these calls. -/
structure Env where
  validateOk : QueueItem → Bool
  joinOk : QueueItem → Bool
  changeOk : QueueItem → Bool
  leaveOk : Bool
  pauseOk : Bool

/-- The slice of every per-chat dictionary for one fixed chat id:
`QueueManager.queues`, `QueueManager.now_playing`,
`QueueManager.leave_timers`, `Player.playing_states`,
`CallManager.active_chats` (`none` means the chat id is absent from that
dict).  `pendingTimers` records the ids of `leave_after_delay` tasks that
have been created and neither cancelled nor completed, `nextTimerId`
supplies fresh task ids, and `pauseInvocations` counts the issued
`pytgcalls.pause_stream` calls; these three are history variables that
record externally visible effects (task creation/cancellation and voice
session invocations). -/
structure ChatState where
  queue : Option (List QueueItem)
  nowPlaying : Option QueueItem
  leaveTimer : Option Nat
  pendingTimers : List Nat
  nextTimerId : Nat
  playerState : Option PlayerChatState
  callState : Option CallChatState
  pauseInvocations : Nat
deriving Repr, DecidableEq

/-- `QueueManager.get_queue_length`. -/
def queueLength (s : ChatState) : Nat :=
  (s.queue.getD []).length

/-- `Player.is_playing`. -/
def playerIsPlaying (s : ChatState) : Bool :=
  match s.playerState with
  | some p => p.isPlaying
  | none => false

/-- `CallManager.is_playing`. -/
def callIsPlaying (s : ChatState) : Bool :=
  match s.callState with
  | some c => c.playing
  | none => false

/-- `QueueManager.is_playing`:
`chat_id in self.now_playing or player.is_playing(chat_id)`. -/
def queueManagerIsPlaying (s : ChatState) : Bool :=
  s.nowPlaying.isSome || playerIsPlaying s

/-- `QueueManager.add_to_queue`.  The `QueueItem` that the Python body
builds from its arguments (with `requested_at = datetime.now()`) is passed
here already constructed.  The queue for the chat is initialised to the
empty list when absent, the capacity check rejects with `False`, otherwise
the item is appended and `True` returned.  When nothing plays the code also
spawns a `_play_next` task with `asyncio.create_task`; running that task is
modelled separately by `playNext`. -/
def addToQueue (cfg : Config) (item : QueueItem) (s : ChatState) :
    Bool × ChatState :=
  let q := s.queue.getD []
  if q.length ≥ cfg.maxQueueSize then
    (false, {s with queue := some q})
  else
    (true, {s with queue := some (q ++ [item])})

/-- The tail of `Player.play_audio` after the voice chat is joined:
`call_manager.change_stream`, `call_manager.set_current_song`, write
`playing_states[chat_id]`, and set the `active_chats` `playing` flag. -/
def playAudioAfterJoin (env : Env) (s : ChatState) (item : QueueItem) :
    Bool × ChatState :=
  if env.changeOk item then
    let s1 :=
      match s.callState with
      | some c => {s with callState := some {c with currentSong := some item.songInfo}}
      | none => s
    let s2 := {s1 with playerState := some ⟨true, some item.songInfo, 0⟩}
    let s3 :=
      match s2.callState with
      | some c => {s2 with callState := some {c with playing := true}}
      | none => s2
    (true, s3)
  else
    (false, s)

/-- `Player.play_audio`: validate the file with ffprobe, join the voice
chat when the chat is not in `active_chats` (a fresh entry starts with
`playing = False` and no current song), then `playAudioAfterJoin`.  Failure
at any stage returns `False` with no further state change. -/
def playAudio (env : Env) (s : ChatState) (item : QueueItem) :
    Bool × ChatState :=
  if env.validateOk item then
    match s.callState with
    | none =>
      if env.joinOk item then
        playAudioAfterJoin env {s with callState := some ⟨false, none⟩} item
      else
        (false, s)
    | some _ => playAudioAfterJoin env s item
  else
    (false, s)

/-- `Player.stop`: stop the ffmpeg stream (a process handle outside the
modelled state), leave the voice chat (the `active_chats` entry is removed
unless the pytgcalls call raises), and delete the chat from
`playing_states`.  It touches neither `QueueManager.queues` nor
`QueueManager.now_playing` nor `QueueManager.leave_timers`. -/
def playerStop (env : Env) (s : ChatState) : Bool × ChatState :=
  let r : Bool × ChatState :=
    if env.leaveOk then (true, {s with callState := none}) else (false, s)
  (r.1, {r.2 with playerState := none})

/-- `QueueManager._handle_empty_queue`: cancel and forget the recorded
leave timer if any, then either schedule a fresh `leave_after_delay` task
(auto-leave enabled) or call `player.stop`. -/
def handleEmptyQueue (env : Env) (cfg : Config) (s : ChatState) : ChatState :=
  let s0 :=
    match s.leaveTimer with
    | some t => {s with leaveTimer := none, pendingTimers := s.pendingTimers.erase t}
    | none => s
  if cfg.autoLeaveVC then
    {s0 with leaveTimer := some s0.nextTimerId,
             pendingTimers := s0.nextTimerId :: s0.pendingTimers,
             nextTimerId := s0.nextTimerId + 1}
  else
    (playerStop env s0).2

/-- The recursion of `QueueManager._play_next` over the chat's queue: pop
the front entry with `pop(0)`, store it in `now_playing`, try
`player.play_audio`; on failure the code calls `_play_next` again ("Try
next song"), which continues with the rest of the queue.  The list argument
mirrors the queue stored in the state. -/
def playNextLoop (env : Env) (cfg : Config) :
    List QueueItem → ChatState → ChatState
  | [], s => handleEmptyQueue env cfg s
  | item :: rest, s =>
    let s1 := {s with queue := some rest, nowPlaying := some item}
    let p := playAudio env s1 item
    if p.1 then p.2 else playNextLoop env cfg rest p.2

/-- `QueueManager._play_next`: empty or absent queue goes to
`_handle_empty_queue`, otherwise the pop/play recursion runs. -/
def playNext (env : Env) (cfg : Config) (s : ChatState) : ChatState :=
  match s.queue with
  | none => handleEmptyQueue env cfg s
  | some q => playNextLoop env cfg q s

/-- `QueueManager.skip_current`: when `now_playing` holds an entry, call
`player.skip` (whose body is exactly `player.stop`), delete the
`now_playing` entry, then `_play_next`; otherwise return `False`. -/
def skipCurrent (env : Env) (cfg : Config) (s : ChatState) :
    Bool × ChatState :=
  match s.nowPlaying with
  | some _ =>
    let s1 := (playerStop env s).2
    let s2 := {s1 with nowPlaying := none}
    (true, playNext env cfg s2)
  | none => (false, s)

/-- `CallManager._on_stream_end`, the handler registered with
`pytgcalls.on_stream_end`: its body only logs `"Stream ended in chat ..."`
and performs no state change (the comment in the source defers the work to
the queue manager, which never registers for the event). -/
def onStreamEnd (s : ChatState) : ChatState := s

/-- The body of `leave_after_delay` inside `_handle_empty_queue`, run when
the sleeping task with id `t` fires: a cancelled task (one no longer
pending) never runs; otherwise the task completes and, when
`QueueManager.is_playing` is false and the queue length is zero, it calls
`player.stop`. -/
def leaveTimerFire (env : Env) (t : Nat) (s : ChatState) : ChatState :=
  if t ∈ s.pendingTimers then
    if queueManagerIsPlaying s = false ∧ queueLength s = 0 then
      (playerStop env {s with pendingTimers := s.pendingTimers.erase t}).2
    else
      {s with pendingTimers := s.pendingTimers.erase t}
  else s

/-- `QueueManager.remove_from_queue`: require the chat to have a queue and
`0 <= index < len(queue)`, then `pop(index)`.  Only a success boolean is
returned; the popped item itself is logged and discarded. -/
def removeFromQueue (s : ChatState) (index : Int) : Bool × ChatState :=
  match s.queue with
  | some q =>
    if 0 ≤ index ∧ index < (q.length : Int) then
      (true, {s with queue := some (q.eraseIdx index.toNat)})
    else
      (false, s)
  | none => (false, s)

/-- One simultaneous assignment `x[i], x[j] = x[j], x[i]` on a Python
list (both right-hand sides read before either cell is written). -/
def listSwap (l : List QueueItem) (i j : Nat) : List QueueItem :=
  match l[i]?, l[j]? with
  | some a, some b => (l.set i b).set j a
  | _, _ => l

/-- The loop of CPython `random.shuffle`: for `i` from `len(x) - 1` down to
`1`, swap `x[i]` with `x[j]` where `j = randbelow(i + 1)`, so `0 ≤ j ≤ i`.
The random draws are supplied by `rnd`, reduced mod `i + 1` to mirror the
`randbelow` range guarantee. -/
def shuffleSteps (rnd : Nat → Nat) : Nat → List QueueItem → List QueueItem
  | 0, l => l
  | i + 1, l => shuffleSteps rnd i (listSwap l (i + 1) (rnd (i + 1) % (i + 2)))

/-- `random.shuffle` applied to a whole list. -/
def randomShuffle (rnd : Nat → Nat) (l : List QueueItem) : List QueueItem :=
  shuffleSteps rnd (l.length - 1) l

/-- `QueueManager.shuffle_queue`: shuffle in place when the chat has a
queue of length strictly greater than 1, otherwise return `False` with the
state unchanged. -/
def shuffleQueue (rnd : Nat → Nat) (s : ChatState) : Bool × ChatState :=
  match s.queue with
  | some q =>
    if q.length > 1 then (true, {s with queue := some (randomShuffle rnd q)})
    else (false, s)
  | none => (false, s)

/-- `QueueManager.move_queue_item`: bounds-check both indices against the
current length and require `from_index != to_index`, then
`item = queue.pop(from_index)` followed by `queue.insert(to_index, item)`. -/
def moveQueueItem (s : ChatState) (fromIdx toIdx : Int) : Bool × ChatState :=
  let q := s.queue.getD []
  if 0 ≤ fromIdx ∧ fromIdx < (q.length : Int) ∧ 0 ≤ toIdx ∧
      toIdx < (q.length : Int) ∧ fromIdx ≠ toIdx then
    match q[fromIdx.toNat]? with
    | some item =>
      let q2 := (q.eraseIdx fromIdx.toNat).insertIdx toIdx.toNat item
      (true, {s with queue := some q2})
    | none => (false, s)
  else (false, s)

/-- The distinct replies of the `/pause` flow in `handlers/control.py`:
the `require_voice_chat` rejection ("I'm not in a voice chat!"), the
"Nothing is currently playing!" rejection (used by both the
`require_playing` decorator and the body's own guard), the success reply,
and the pytgcalls-failure reply. -/
inductive PauseReply where
  | notInVoiceChat
  | nothingPlaying
  | paused
  | pauseFailed
deriving Repr, DecidableEq

/-- `CallManager.pause_stream`: issue `pytgcalls.pause_stream` (counted in
the history variable), and on success clear the `active_chats` `playing`
flag; on exception return `False`. -/
def pauseStream (env : Env) (s : ChatState) : Bool × ChatState :=
  let s0 := {s with pauseInvocations := s.pauseInvocations + 1}
  if env.pauseOk then
    match s0.callState with
    | some c => (true, {s0 with callState := some {c with playing := false}})
    | none => (true, s0)
  else (false, s0)

/-- `Player.pause`: `call_manager.pause_stream`, and on success clear
`playing_states[chat_id]['is_playing']`. -/
def playerPause (env : Env) (s : ChatState) : Bool × ChatState :=
  let r := pauseStream env s
  if r.1 then
    match r.2.playerState with
    | some p => (true, {r.2 with playerState := some {p with isPlaying := false}})
    | none => (true, r.2)
  else (false, r.2)

/-- The `/pause` handler chain of `handlers/control.py` as executed: the
`require_voice_chat` decorator (`call_manager.is_playing`), the
`require_playing` decorator (`queue_manager.is_playing`), the body's own
`player.is_playing` guard, then `player.pause` with the success and failure
replies. -/
def pauseCommand (env : Env) (s : ChatState) : PauseReply × ChatState :=
  if callIsPlaying s = false then (.notInVoiceChat, s)
  else if queueManagerIsPlaying s = false then (.nothingPlaying, s)
  else if playerIsPlaying s = false then (.nothingPlaying, s)
  else
    let r := playerPause env s
    if r.1 then (.paused, r.2) else (.pauseFailed, r.2)

/-- Folding `add_to_queue` over a list of requests for one chat. -/
def enqueueAll (cfg : Config) (items : List QueueItem) (s : ChatState) :
    ChatState :=
  items.foldl (fun t item => (addToQueue cfg item t).2) s

/-- Iterating the advance path (`_play_next`) a number of times. -/
def advanceTimes (env : Env) (cfg : Config) : Nat → ChatState → ChatState
  | 0, s => s
  | n + 1, s => advanceTimes env cfg n (playNext env cfg s)

/-- The entries popped and handed to `player.play_audio` by one
`_play_next` cascade, following exactly the recursion of `playNextLoop`. -/
def playNextAttempts (env : Env) : List QueueItem → ChatState → List QueueItem
  | [], _ => []
  | item :: rest, s =>
    let s1 := {s with queue := some rest, nowPlaying := some item}
    let p := playAudio env s1 item
    if p.1 then [item] else item :: playNextAttempts env rest p.2

/-- Modelled from the spec: the per-chat state of the specified design
(`ChatPlaybackState`), in particular its `generation` fencing counter,
which the source code does not contain. -/
structure SpecChatState where
  queue : List QueueItem
  nowPlaying : Option QueueItem
  generation : Nat
deriving Repr, DecidableEq

/-- Modelled from the spec: a stream-end notification triggers an advance
(pop the next entry or go idle) committed under the generation fence, with
the generation bumped on the transition. -/
def specStreamEnd (s : SpecChatState) : SpecChatState :=
  match s.queue with
  | [] => {s with nowPlaying := none, generation := s.generation + 1}
  | item :: rest => ⟨rest, some item, s.generation + 1⟩

/-- The abstraction of a source state to the spec state; the code has no
generation counter, rendered here as the constant 0. -/
def specAbs (s : ChatState) : SpecChatState :=
  ⟨s.queue.getD [], s.nowPlaying, 0⟩

/-- Modelled from the spec:
`remove_at(chat, index) -> Result<Track, IndexOutOfRange>`, returning the
removed entry itself on success (`some`) and the `IndexOutOfRange` error
(`none`) otherwise. -/
def specRemoveAt (q : List QueueItem) (index : Nat) :
    Option (QueueItem × List QueueItem) :=
  match q[index]? with
  | some item => some (item, q.eraseIdx index)
  | none => none

/-! ### Concrete fixtures used by the closed theorems below -/

/-- A track whose media file fails ffprobe validation in `env2`. -/
def badItem : QueueItem := ⟨"bad", "bad.mp3", 1, 0, none⟩

/-- Environment where every prepare fails (ffprobe rejects the file). -/
def env2 : Env := ⟨fun _ => false, fun _ => true, fun _ => true, true, true⟩

/-- Environment where every external call succeeds. -/
def envOk : Env := ⟨fun _ => true, fun _ => true, fun _ => true, true, true⟩

/-- Default-flavoured configuration (`MAX_QUEUE_SIZE = 100`,
`AUTO_LEAVE_VC = True`). -/
def cfg100 : Config := ⟨100, true⟩

/-- Idle chat whose queue holds exactly the failing track. -/
def s2 : ChatState := ⟨some [badItem], none, none, [], 0, none, none, 0⟩

/-- Sample tracks. -/
def itemA : QueueItem := ⟨"a", "a.mp3", 1, 0, none⟩

/-- Another sample track, distinct from `itemA`. -/
def itemB : QueueItem := ⟨"b", "b.mp3", 2, 0, none⟩

/-- A third sample track. -/
def itemC : QueueItem := ⟨"c", "c.mp3", 3, 0, none⟩

/-- Chat currently playing `itemA` with `itemB` queued. -/
def s7 : ChatState :=
  ⟨some [itemB], some itemA, none, [], 0, some ⟨true, some "a", 0⟩,
    some ⟨true, some "a"⟩, 0⟩

/-- Chat currently playing `itemA` with `itemB` queued (C1 instance). -/
def s1c : ChatState :=
  ⟨some [itemB], some itemA, none, [], 0, some ⟨true, some "a", 0⟩,
    some ⟨true, some "a"⟩, 0⟩

/-- Idle chat with an outstanding (pending, uncancelled) auto-leave timer. -/
def s6 : ChatState := ⟨some [], none, some 0, [0], 1, none, none, 0⟩

/-- Chat currently playing `itemA`, nothing queued (C5 instance). -/
def s5 : ChatState :=
  ⟨some [], some itemA, none, [], 0, some ⟨true, some "a", 0⟩,
    some ⟨true, some "a"⟩, 0⟩

/-- Fresh chat that never joined a voice call. -/
def s5fresh : ChatState := ⟨none, none, none, [], 0, none, none, 0⟩

/-- Chat with a one-entry queue holding `itemA`. -/
def s9a : ChatState := ⟨some [itemA], none, none, [], 0, none, none, 0⟩

/-- Chat with a one-entry queue holding `itemB`. -/
def s9b : ChatState := ⟨some [itemB], none, none, [], 0, none, none, 0⟩

/-! ### Closed evaluation theorems -/

/-- C2 (code_bug evidence): run the advance on a chat whose single queued
track fails preparation.  The cascade drains the queue and reaches the
empty-queue handler, yet `now_playing` keeps the failed entry, so
`QueueManager.is_playing` stays true while `Player.is_playing` is false;
the scheduled auto-leave task's own guard can therefore never pass. -/
theorem failure_drain_stale_now_playing :
    (playNext env2 cfg100 s2).nowPlaying = some badItem ∧
    (playNext env2 cfg100 s2).queue = some [] ∧
    queueManagerIsPlaying (playNext env2 cfg100 s2) = true ∧
    playerIsPlaying (playNext env2 cfg100 s2) = false ∧
    (playNext env2 cfg100 s2).leaveTimer = some 0 :=
  ⟨rfl, rfl, rfl, rfl, rfl⟩

/-- C7 (code_bug evidence): `Player.stop` on a chat playing `itemA` with
`itemB` queued.  The pending queue is untouched (the frame part of the
claim holds) and the player/call entries are cleared, but
`QueueManager.now_playing` still holds `itemA`, so
`QueueManager.is_playing` remains true. -/
theorem stop_leaves_now_playing :
    (playerStop envOk s7).2.queue = some [itemB] ∧
    (playerStop envOk s7).2.nowPlaying = some itemA ∧
    (playerStop envOk s7).2.playerState = none ∧
    (playerStop envOk s7).2.callState = none ∧
    queueManagerIsPlaying (playerStop envOk s7).2 = true :=
  ⟨rfl, rfl, rfl, rfl, rfl⟩

/-- C1 (counterexample): the code's stream-end handler is an identity on
the state — it performs no advance at all — whereas the generation-fenced
advance the claim attributes to it pops the queue.  There is no
generation-counter fencing in the code. -/
theorem stream_end_no_fenced_advance :
    onStreamEnd s1c = s1c ∧
    specStreamEnd (specAbs s1c) ≠ specAbs (onStreamEnd s1c) :=
  ⟨rfl, by decide⟩

/-- C6 (counterexample): an enqueue into a chat with an outstanding
auto-leave timer succeeds without cancelling the timer: the timer stays
recorded and pending, refuting "any new enqueue or control action cancels
that timer before proceeding". -/
theorem enqueue_does_not_cancel_timer :
    (addToQueue cfg100 itemC s6).1 = true ∧
    (addToQueue cfg100 itemC s6).2.leaveTimer = some 0 ∧
    (addToQueue cfg100 itemC s6).2.pendingTimers = [0] :=
  ⟨rfl, rfl, rfl⟩

/-- C5 (counterexample): after a successful `/pause`, a second `/pause` is
answered with the same reply the bot gives in a chat it never joined
("I'm not in a voice chat!", because pausing cleared the call-manager
`playing` flag that `require_voice_chat` checks) — not a distinct
"already paused" result. -/
theorem pause_second_reply_not_distinct :
    (pauseCommand envOk s5).1 = PauseReply.paused ∧
    (pauseCommand envOk (pauseCommand envOk s5).2).1 =
      PauseReply.notInVoiceChat ∧
    (pauseCommand envOk s5fresh).1 = PauseReply.notInVoiceChat :=
  ⟨rfl, rfl, rfl⟩

/-- C9 (counterexample): `remove_from_queue` at a valid index returns only
the boolean `True`, identical for removing the distinct tracks `itemA` and
`itemB`, while the claimed `Result<Track, ...>` interface distinguishes
them: the removed entry's track is not returned by the code. -/
theorem remove_returns_no_track :
    itemA ≠ itemB ∧
    (removeFromQueue s9a 0).1 = (removeFromQueue s9b 0).1 ∧
    specRemoveAt [itemA] 0 ≠ specRemoveAt [itemB] 0 :=
  ⟨by decide, rfl, by decide⟩

/-! ### Frame lemmas -/

/-- `player.play_audio` only touches the player/call entries: the queue,
`now_playing` and the timer bookkeeping are unchanged on every branch. -/
theorem playAudio_frame (env : Env) (s : ChatState) (item : QueueItem) :
    (playAudio env s item).2.queue = s.queue ∧
    (playAudio env s item).2.nowPlaying = s.nowPlaying ∧
    (playAudio env s item).2.leaveTimer = s.leaveTimer ∧
    (playAudio env s item).2.pendingTimers = s.pendingTimers ∧
    (playAudio env s item).2.nextTimerId = s.nextTimerId := by
  unfold playAudio playAudioAfterJoin
  cases hv : env.validateOk item <;> cases hcs : s.callState <;>
    cases hj : env.joinOk item <;> cases hc : env.changeOk item <;>
      simp [hv, hcs, hj, hc]

/-- When every external call of the play path succeeds, `play_audio`
returns `True`. -/
theorem playAudio_success (env : Env) (s : ChatState) (item : QueueItem)
    (hv : env.validateOk item = true) (hj : env.joinOk item = true)
    (hc : env.changeOk item = true) :
    (playAudio env s item).1 = true := by
  unfold playAudio playAudioAfterJoin
  cases hcs : s.callState <;> simp [hv, hj, hc, hcs]

/-- A failed ffprobe validation makes `play_audio` return `False` with the
state unchanged. -/
theorem playAudio_invalid (env : Env) (s : ChatState) (item : QueueItem)
    (hv : env.validateOk item = false) :
    playAudio env s item = (false, s) := by
  unfold playAudio
  simp [hv]

/-- `Player.stop` touches only the player/call entries. -/
theorem playerStop_frame (env : Env) (s : ChatState) :
    (playerStop env s).2.queue = s.queue ∧
    (playerStop env s).2.nowPlaying = s.nowPlaying ∧
    (playerStop env s).2.leaveTimer = s.leaveTimer ∧
    (playerStop env s).2.pendingTimers = s.pendingTimers ∧
    (playerStop env s).2.nextTimerId = s.nextTimerId := by
  cases h : env.leaveOk <;> simp [playerStop, h]

/-- A successful advance pops exactly the front entry: it lands in
`now_playing` and the stored queue becomes the rest. -/
theorem playNext_success_step (env : Env) (cfg : Config) (s : ChatState)
    (y : QueueItem) (rest : List QueueItem) (hq : s.queue = some (y :: rest))
    (hv : env.validateOk y = true) (hj : env.joinOk y = true)
    (hc : env.changeOk y = true) :
    (playNext env cfg s).queue = some rest ∧
    (playNext env cfg s).nowPlaying = some y := by
  have h1 := playAudio_success env
    {s with queue := some rest, nowPlaying := some y} y hv hj hc
  have h2 := playAudio_frame env
    {s with queue := some rest, nowPlaying := some y} y
  simp only [playNext, hq, playNextLoop]
  simp only [h1, if_true]
  exact ⟨by rw [h2.1], by rw [h2.2.1]⟩

/-! ### C3: enqueue capacity -/

/-- C3: enqueue on a queue already holding `MAX_QUEUE_SIZE` entries is
rejected with `False` and the state (queue length and contents) is
unchanged; below capacity the entry is appended at the tail and `True`
returned. -/
theorem enqueue_capacity (cfg : Config) (s : ChatState)
    (q : List QueueItem) (item : QueueItem) (hq : s.queue = some q) :
    (q.length = cfg.maxQueueSize → addToQueue cfg item s = (false, s)) ∧
    (q.length < cfg.maxQueueSize →
      addToQueue cfg item s = (true, {s with queue := some (q ++ [item])})) := by
  constructor
  · intro h
    simp only [addToQueue, hq, Option.getD_some]
    rw [if_pos (Nat.le_of_eq h.symm)]
    rw [← hq]
  · intro h
    simp only [addToQueue, hq, Option.getD_some]
    rw [if_neg (by omega)]

/-- Witness for `enqueue_capacity` at concrete inputs: with capacity 1 the
full queue `[itemA]` rejects `itemB` unchanged; with capacity 2 it appends
`itemB` at the tail. -/
theorem enqueue_capacity_witness :
    addToQueue ⟨1, true⟩ itemB s9a = (false, s9a) ∧
    addToQueue ⟨2, true⟩ itemB s9a =
      (true, {s9a with queue := some ([itemA] ++ [itemB])}) :=
  ⟨(enqueue_capacity ⟨1, true⟩ s9a [itemA] itemB rfl).1 rfl,
   (enqueue_capacity ⟨2, true⟩ s9a [itemA] itemB rfl).2 (by decide)⟩

/-! ### C9: remove_at -/

/-- C9 (amended): `remove_from_queue` with an out-of-range index returns
`False` (the failure result standing for `IndexOutOfRange`) with the state
unchanged; a valid index removes exactly the entry at that position and
returns the success boolean `True` — not the removed entry's track. -/
theorem remove_at_spec (s : ChatState) (q : List QueueItem) (index : Int)
    (hq : s.queue = some q) :
    (¬ (0 ≤ index ∧ index < (q.length : Int)) →
      removeFromQueue s index = (false, s)) ∧
    (0 ≤ index → index < (q.length : Int) →
      removeFromQueue s index =
        (true, {s with queue := some (q.eraseIdx index.toNat)}) ∧
      q.eraseIdx index.toNat = q.take index.toNat ++ q.drop (index.toNat + 1)) := by
  constructor
  · intro h
    simp [removeFromQueue, hq, h]
  · intro h1 h2
    refine ⟨by simp [removeFromQueue, hq, h1, h2], ?_⟩
    exact List.eraseIdx_eq_take_drop_succ q index.toNat

/-- Witness for `remove_at_spec` on the one-entry queue `[itemA]`: index 2
is rejected unchanged, index 0 removes the entry returning `True`. -/
theorem remove_at_spec_witness :
    removeFromQueue s9a 2 = (false, s9a) ∧
    removeFromQueue s9a 0 =
      (true, {s9a with queue := some ([itemA].eraseIdx 0)}) :=
  ⟨(remove_at_spec s9a [itemA] 2 rfl).1 (by decide),
   ((remove_at_spec s9a [itemA] 0 rfl).2 (by decide) (by decide)).1⟩

/-! ### C1: skip racing a stream-end notification -/

/-- C1 (amended): a `skip_current` and a concurrently delivered stream-end
notification for the same playing track produce exactly one advance in
either interleaving — but only because the stream-end handler is a no-op
stub that performs no advance, not because of any generation-counter
fencing (the code has none).  The queue length decreases by exactly 1 and
the popped entry becomes `now_playing` (when the next track prepares
successfully). -/
theorem skip_stream_end_single_advance (env : Env) (cfg : Config)
    (s : ChatState) (t b : QueueItem) (rest : List QueueItem)
    (hnp : s.nowPlaying = some t) (hq : s.queue = some (b :: rest))
    (hv : env.validateOk b = true) (hj : env.joinOk b = true)
    (hc : env.changeOk b = true) :
    skipCurrent env cfg (onStreamEnd s) = skipCurrent env cfg s ∧
    onStreamEnd (skipCurrent env cfg s).2 = (skipCurrent env cfg s).2 ∧
    (skipCurrent env cfg s).1 = true ∧
    (skipCurrent env cfg s).2.queue = some rest ∧
    (skipCurrent env cfg s).2.nowPlaying = some b ∧
    queueLength (skipCurrent env cfg s).2 = queueLength s - 1 := by
  have hps := playerStop_frame env s
  have hq2 : ({(playerStop env s).2 with nowPlaying := none} : ChatState).queue
      = some (b :: rest) := by rw [← hq]; exact hps.1
  have hstep := playNext_success_step env cfg
    {(playerStop env s).2 with nowPlaying := none} b rest hq2 hv hj hc
  have hskip : skipCurrent env cfg s
      = (true, playNext env cfg {(playerStop env s).2 with nowPlaying := none}) := by
    simp only [skipCurrent, hnp]
  refine ⟨rfl, rfl, ?_, ?_, ?_, ?_⟩ <;> rw [hskip]
  · exact hstep.1
  · exact hstep.2
  · simp [queueLength, hstep.1, hq]

/-- Witness for `skip_stream_end_single_advance`: the chat `s1c` plays
`itemA` with `itemB` queued, every external call succeeds. -/
theorem skip_stream_end_single_advance_witness :
    skipCurrent envOk cfg100 (onStreamEnd s1c) = skipCurrent envOk cfg100 s1c ∧
    onStreamEnd (skipCurrent envOk cfg100 s1c).2 = (skipCurrent envOk cfg100 s1c).2 ∧
    (skipCurrent envOk cfg100 s1c).1 = true ∧
    (skipCurrent envOk cfg100 s1c).2.queue = some [] ∧
    (skipCurrent envOk cfg100 s1c).2.nowPlaying = some itemB ∧
    queueLength (skipCurrent envOk cfg100 s1c).2 = queueLength s1c - 1 :=
  skip_stream_end_single_advance envOk cfg100 s1c itemA itemB [] rfl rfl rfl rfl rfl

/-! ### C4: FIFO order -/

/-- Enqueues accumulate at the tail in order, as long as capacity allows. -/
theorem enqueueAll_queue (cfg : Config) :
    ∀ (xs : List QueueItem) (s : ChatState) (q : List QueueItem),
      s.queue = some q → q.length + xs.length ≤ cfg.maxQueueSize →
      (enqueueAll cfg xs s).queue = some (q ++ xs) := by
  intro xs
  induction xs with
  | nil =>
    intro s q hq _
    simpa [enqueueAll] using hq
  | cons x xs ih =>
    intro s q hq hlen
    have hstep : addToQueue cfg x s = (true, {s with queue := some (q ++ [x])}) :=
      (enqueue_capacity cfg s q x hq).2 (by simp at hlen; omega)
    have : enqueueAll cfg (x :: xs) s = enqueueAll cfg xs (addToQueue cfg x s).2 := rfl
    rw [this, hstep]
    have := ih {s with queue := some (q ++ [x])} (q ++ [x]) rfl
      (by simp at hlen ⊢; omega)
    simpa using this

/-- With every preparation succeeding, the `k`-th advance plays exactly the
`k`-th entry of the stored queue and leaves its tail behind. -/
theorem advance_pop_order (env : Env) (cfg : Config) :
    ∀ (k : Nat) (ys : List QueueItem) (s : ChatState),
      s.queue = some ys →
      (∀ x ∈ ys, env.validateOk x = true ∧ env.joinOk x = true ∧
        env.changeOk x = true) →
      k < ys.length →
      (advanceTimes env cfg (k + 1) s).nowPlaying = ys[k]? ∧
      (advanceTimes env cfg (k + 1) s).queue = some (ys.drop (k + 1)) := by
  intro k
  induction k with
  | zero =>
    intro ys s hq hok hk
    match ys, hk with
    | y :: rest, _ =>
      have hx := hok y (by simp)
      have hstep := playNext_success_step env cfg s y rest hq hx.1 hx.2.1 hx.2.2
      simpa [advanceTimes] using ⟨hstep.2, hstep.1⟩
  | succ k ih =>
    intro ys s hq hok hk
    match ys, hk with
    | y :: rest, hk =>
      have hx := hok y (by simp)
      have hstep := playNext_success_step env cfg s y rest hq hx.1 hx.2.1 hx.2.2
      have hrest := ih rest (playNext env cfg s) hstep.1
        (fun x hx2 => hok x (by simp [hx2])) (by simpa using hk)
      have hunf : advanceTimes env cfg (k + 1 + 1) s
          = advanceTimes env cfg (k + 1) (playNext env cfg s) := rfl
      rw [hunf]
      simpa using hrest

/-- C4: for every sequence of enqueues into a fresh (empty-queue) chat with
no intervening shuffle or move, the `k`-th advance pops exactly the `k`-th
enqueued entry: pop order equals insertion order. -/
theorem fifo_order (env : Env) (cfg : Config) (s : ChatState)
    (xs : List QueueItem) (k : Nat) (hs : s.queue = some [])
    (hlen : xs.length ≤ cfg.maxQueueSize)
    (hok : ∀ x ∈ xs, env.validateOk x = true ∧ env.joinOk x = true ∧
      env.changeOk x = true)
    (hk : k < xs.length) :
    (advanceTimes env cfg (k + 1) (enqueueAll cfg xs s)).nowPlaying = xs[k]? ∧
    (advanceTimes env cfg (k + 1) (enqueueAll cfg xs s)).queue =
      some (xs.drop (k + 1)) := by
  have hq := enqueueAll_queue cfg xs s [] hs (by simpa using hlen)
  exact advance_pop_order env cfg k xs _ (by simpa using hq) hok hk

/-- An initially empty chat used by concrete scenarios. -/
def sEmpty : ChatState := ⟨some [], none, none, [], 0, none, none, 0⟩

/-- Witness for `fifo_order`: enqueue `[itemA, itemB]` into an empty chat;
the second advance plays `itemB`. -/
theorem fifo_order_witness :
    (advanceTimes envOk cfg100 2 (enqueueAll cfg100 [itemA, itemB] sEmpty)).nowPlaying
      = [itemA, itemB][1]? ∧
    (advanceTimes envOk cfg100 2 (enqueueAll cfg100 [itemA, itemB] sEmpty)).queue
      = some ([itemA, itemB].drop 2) :=
  fifo_order envOk cfg100 sEmpty [itemA, itemB] 1 rfl (by decide)
    (by intro x hx; exact ⟨rfl, rfl, rfl⟩) (by decide)

/-! ### C5: second pause -/

/-- C5 (amended): after any `/pause` that succeeded, a second `/pause`
performs no additional `pytgcalls.pause_stream` invocation and leaves the
state unchanged (the returned state is the input state itself, so
`pauseInvocations` is unchanged), replying with the generic
`require_voice_chat` rejection rather than a dedicated "already paused"
result. -/
theorem pause_second_call (env : Env) (s : ChatState)
    (h : (pauseCommand env s).1 = PauseReply.paused) :
    pauseCommand env (pauseCommand env s).2 =
      (PauseReply.notInVoiceChat, (pauseCommand env s).2) := by
  cases hb1 : callIsPlaying s with
  | false => rw [pauseCommand, if_pos (by rw [hb1])] at h; cases h
  | true =>
  cases hb2 : queueManagerIsPlaying s with
  | false =>
    rw [pauseCommand, if_neg (by rw [hb1]; simp)] at h
    rw [if_pos (by rw [hb2])] at h; cases h
  | true =>
  cases hb3 : playerIsPlaying s with
  | false =>
    rw [pauseCommand, if_neg (by rw [hb1]; simp),
      if_neg (by rw [hb2]; simp)] at h
    rw [if_pos (by rw [hb3])] at h; cases h
  | true =>
  obtain ⟨c, hcall⟩ : ∃ c, s.callState = some c := by
    cases hcs : s.callState with
    | none => rw [callIsPlaying, hcs] at hb1; cases hb1
    | some c => exact ⟨c, rfl⟩
  cases hp : env.pauseOk with
  | false =>
    have hfail : (playerPause env s).1 = false := by
      simp [playerPause, pauseStream, hp]
    rw [pauseCommand, if_neg (by rw [hb1]; simp), if_neg (by rw [hb2]; simp),
      if_neg (by rw [hb3]; simp)] at h
    simp only [hfail, if_false, Bool.false_eq_true] at h
    cases h
  | true =>
  have hok : (playerPause env s).1 = true := by
    simp only [playerPause, pauseStream, hp]
    cases hps : s.playerState <;> simp [hcall, hps]
  have hcp : callIsPlaying (playerPause env s).2 = false := by
    simp only [playerPause, pauseStream, hp]
    cases hps : s.playerState <;> simp [hcall, hps, callIsPlaying]
  have hmain : pauseCommand env s = (PauseReply.paused, (playerPause env s).2) := by
    rw [pauseCommand, if_neg (by rw [hb1]; simp), if_neg (by rw [hb2]; simp),
      if_neg (by rw [hb3]; simp)]
    simp [hok]
  rw [hmain]
  rw [pauseCommand, if_pos (by rw [hcp])]

/-- Witness for `pause_second_call`: the chat `s5` is playing and every
external call succeeds, so the first `/pause` replies `paused`. -/
theorem pause_second_call_witness :
    pauseCommand envOk (pauseCommand envOk s5).2 =
      (PauseReply.notInVoiceChat, (pauseCommand envOk s5).2) :=
  pause_second_call envOk s5 rfl

/-! ### C6: auto-leave timer discipline -/

/-- The chat records at most one pending auto-leave task, and any pending
task is the one recorded in `leave_timers`. -/
def timerInv (s : ChatState) : Prop :=
  s.pendingTimers.length ≤ 1 ∧ ∀ t ∈ s.pendingTimers, s.leaveTimer = some t

/-- `timerInv` only depends on the timer bookkeeping fields. -/
theorem timerInv_of_frames {s s2 : ChatState} (h : timerInv s)
    (hp : s2.pendingTimers = s.pendingTimers)
    (hl : s2.leaveTimer = s.leaveTimer) : timerInv s2 := by
  obtain ⟨h1, h2⟩ := h
  exact ⟨hp ▸ h1, fun t ht => by rw [hl]; exact h2 t (hp ▸ ht)⟩

/-- Under `timerInv`, the cancel-then-reschedule of `_handle_empty_queue`
keeps the invariant: the previously pending task is cancelled before the
fresh one is recorded. -/
theorem handleEmptyQueue_timerInv (env : Env) (cfg : Config) (s : ChatState)
    (h : timerInv s) : timerInv (handleEmptyQueue env cfg s) := by
  obtain ⟨hlen, hall⟩ := h
  have hcancel : ∀ s0 : ChatState, s0.pendingTimers = [] →
      timerInv (if cfg.autoLeaveVC then
        {s0 with leaveTimer := some s0.nextTimerId,
                 pendingTimers := s0.nextTimerId :: s0.pendingTimers,
                 nextTimerId := s0.nextTimerId + 1}
        else (playerStop env s0).2) := by
    intro s0 h0
    cases hb : cfg.autoLeaveVC with
    | true => simp [hb, timerInv, h0]
    | false =>
      have hf := playerStop_frame env s0
      simp only [hb, Bool.false_eq_true, if_false]
      refine timerInv_of_frames ⟨?_, ?_⟩ hf.2.2.2.1 hf.2.2.1
      · simp [h0]
      · intro u hu; rw [h0] at hu; cases hu
  unfold handleEmptyQueue
  cases ht : s.leaveTimer with
  | none =>
    have h0 : s.pendingTimers = [] := by
      cases hpt : s.pendingTimers with
      | nil => rfl
      | cons a l =>
        have := hall a (by rw [hpt]; simp)
        rw [ht] at this; cases this
    exact hcancel s h0
  | some t0 =>
    have h0 : s.pendingTimers.erase t0 = [] := by
      cases hpt : s.pendingTimers with
      | nil => simp [hpt]
      | cons a l =>
        have ha := hall a (by rw [hpt]; simp)
        rw [ht] at ha
        have hat : t0 = a := by injection ha
        have hl0 : l = [] := by
          rw [hpt] at hlen; simpa using hlen
        rw [hat, hl0]
        simp
    exact hcancel _ h0

/-- The play cascade preserves the timer invariant: `play_audio` never
touches the timers, and the only scheduling happens through
`_handle_empty_queue`. -/
theorem playNextLoop_timerInv (env : Env) (cfg : Config) :
    ∀ (q : List QueueItem) (s : ChatState), timerInv s →
      timerInv (playNextLoop env cfg q s) := by
  intro q
  induction q with
  | nil => intro s h; exact handleEmptyQueue_timerInv env cfg s h
  | cons item rest ih =>
    intro s h
    have h1 : timerInv ({s with queue := some rest, nowPlaying := some item} : ChatState) :=
      timerInv_of_frames h rfl rfl
    have hf := playAudio_frame env {s with queue := some rest, nowPlaying := some item} item
    have h2 : timerInv (playAudio env
        {s with queue := some rest, nowPlaying := some item} item).2 :=
      timerInv_of_frames h1 hf.2.2.2.1 hf.2.2.1
    simp only [playNextLoop]
    split
    · exact h2
    · exact ih _ h2

/-- C6 (amended): an enqueue does NOT cancel the outstanding auto-leave
timer (its bookkeeping is untouched); instead, at most one auto-leave task
is ever pending per chat because each `_handle_empty_queue` scheduling
cancels the previously recorded task first, and a superseded timer that
fires while the chat is playing or has a non-empty queue fails its re-check
and never invokes `player.stop`. -/
theorem auto_leave_timer_discipline (env : Env) (cfg : Config)
    (item : QueueItem) (t : Nat) (s : ChatState) (hinv : timerInv s) :
    (addToQueue cfg item s).2.leaveTimer = s.leaveTimer ∧
    (addToQueue cfg item s).2.pendingTimers = s.pendingTimers ∧
    timerInv (handleEmptyQueue env cfg s) ∧
    timerInv (playNext env cfg s) ∧
    timerInv (leaveTimerFire env t s) ∧
    (queueManagerIsPlaying s = true ∨ queueLength s ≠ 0 →
      (leaveTimerFire env t s).callState = s.callState ∧
      (leaveTimerFire env t s).playerState = s.playerState) := by
  refine ⟨?_, ?_, handleEmptyQueue_timerInv env cfg s hinv, ?_, ?_, ?_⟩
  · by_cases hcap : (s.queue.getD []).length ≥ cfg.maxQueueSize <;>
      simp [addToQueue, hcap]
  · by_cases hcap : (s.queue.getD []).length ≥ cfg.maxQueueSize <;>
      simp [addToQueue, hcap]
  · unfold playNext
    cases hq : s.queue with
    | none => exact handleEmptyQueue_timerInv env cfg s hinv
    | some q => exact playNextLoop_timerInv env cfg q s hinv
  · have herase : timerInv ({s with
        pendingTimers := s.pendingTimers.erase t} : ChatState) := by
      obtain ⟨h1, h2⟩ := hinv
      refine ⟨le_trans (List.Sublist.length_le (s.pendingTimers.erase_sublist t)) h1, ?_⟩
      intro u hu
      exact h2 u ((s.pendingTimers.erase_sublist t).subset hu)
    unfold leaveTimerFire
    split
    · split
      · have hf := playerStop_frame env
          {s with pendingTimers := s.pendingTimers.erase t}
        exact timerInv_of_frames herase hf.2.2.2.1 hf.2.2.1
      · exact herase
    · exact hinv
  · intro hsup
    have hguard : ¬ (queueManagerIsPlaying s = false ∧ queueLength s = 0) := by
      rcases hsup with hplay | hlen
      · intro hcon; rw [hplay] at hcon; cases hcon.1
      · intro hcon; exact hlen hcon.2
    by_cases hmem : t ∈ s.pendingTimers
    · rw [leaveTimerFire, if_pos hmem, if_neg hguard]
      exact ⟨rfl, rfl⟩
    · rw [leaveTimerFire, if_neg hmem]
      exact ⟨rfl, rfl⟩

/-- Witness for `auto_leave_timer_discipline` at the chat `s6`, which has
one outstanding pending auto-leave timer and an empty queue, playing
nothing; the superseded-fire conjunct is then exercised on the chat `s5`
(playing, so a firing timer must not stop). -/
theorem auto_leave_timer_discipline_witness :
    ((addToQueue cfg100 itemC s6).2.leaveTimer = s6.leaveTimer ∧
     (addToQueue cfg100 itemC s6).2.pendingTimers = s6.pendingTimers ∧
     timerInv (handleEmptyQueue envOk cfg100 s6) ∧
     timerInv (playNext envOk cfg100 s6) ∧
     timerInv (leaveTimerFire envOk 0 s6) ∧
     (queueManagerIsPlaying s6 = true ∨ queueLength s6 ≠ 0 →
       (leaveTimerFire envOk 0 s6).callState = s6.callState ∧
       (leaveTimerFire envOk 0 s6).playerState = s6.playerState)) ∧
    ((queueManagerIsPlaying s5 = true ∨ queueLength s5 ≠ 0 →
       (leaveTimerFire envOk 0 s5).callState = s5.callState ∧
       (leaveTimerFire envOk 0 s5).playerState = s5.playerState)) :=
  ⟨auto_leave_timer_discipline envOk cfg100 itemC 0 s6 (by constructor <;> decide),
   (auto_leave_timer_discipline envOk cfg100 itemC 0 s5
     (by constructor <;> decide)).2.2.2.2.2⟩

/-! ### C8: bounded prepare-failure advance -/

/-- The attempted entries always form a prefix of the queue: every entry is
popped and attempted at most once, in queue order. -/
theorem playNextAttempts_append (env : Env) :
    ∀ (q : List QueueItem) (s : ChatState),
      ∃ suffix, playNextAttempts env q s ++ suffix = q := by
  intro q
  induction q with
  | nil => intro s; exact ⟨[], rfl⟩
  | cons item rest ih =>
    intro s
    simp only [playNextAttempts]
    split
    · exact ⟨rest, rfl⟩
    · obtain ⟨suf, hsuf⟩ := ih (playAudio env
        {s with queue := some rest, nowPlaying := some item} item).2
      exact ⟨suf, by simp [hsuf]⟩

/-- `_handle_empty_queue` touches neither `now_playing` nor the queue on
any branch. -/
theorem handleEmptyQueue_frame (env : Env) (cfg : Config) (s : ChatState) :
    (handleEmptyQueue env cfg s).nowPlaying = s.nowPlaying ∧
    (handleEmptyQueue env cfg s).queue = s.queue := by
  unfold handleEmptyQueue
  cases ht : s.leaveTimer with
  | none =>
    cases hb : cfg.autoLeaveVC with
    | true => simp [hb]
    | false =>
      have hf := playerStop_frame env s
      simp only [hb, Bool.false_eq_true, if_false]
      exact ⟨hf.2.1, hf.1⟩
  | some t0 =>
    cases hb : cfg.autoLeaveVC with
    | true => simp [hb]
    | false =>
      have hf := playerStop_frame env
        {s with leaveTimer := none, pendingTimers := s.pendingTimers.erase t0}
      simp only [hb, Bool.false_eq_true, if_false]
      exact ⟨hf.2.1, hf.1⟩

/-- When every entry fails validation, a cascade started on a non-empty
queue ends with `now_playing` still holding an entry (the last failed one
is never cleared). -/
theorem playNextLoop_allfail_not_idle (env : Env) (cfg : Config)
    (hall : ∀ x, env.validateOk x = false) :
    ∀ (q : List QueueItem) (s : ChatState), q ≠ [] →
      ((playNextLoop env cfg q s).nowPlaying).isSome = true := by
  intro q
  induction q with
  | nil => intro s h; exact absurd rfl h
  | cons item rest ih =>
    intro s _
    simp only [playNextLoop]
    rw [playAudio_invalid env _ item (hall item)]
    simp only [Bool.false_eq_true, if_false]
    cases hrest : rest with
    | nil =>
      simp only [playNextLoop]
      rw [(handleEmptyQueue_frame env cfg
        {s with queue := some [], nowPlaying := some item}).1]
      rfl
    | cons b l =>
      rw [← hrest]
      exact ih {s with queue := some rest, nowPlaying := some item}
        (by rw [hrest]; simp)

/-- When every entry fails validation and auto-leave is on, the cascade
ends on the empty queue with a scheduled auto-leave task. -/
theorem playNextLoop_allfail (env : Env) (cfg : Config)
    (hall : ∀ x, env.validateOk x = false) (hauto : cfg.autoLeaveVC = true) :
    ∀ (q : List QueueItem) (s : ChatState), s.queue = some q →
      (playNextLoop env cfg q s).queue = some [] ∧
      (playNextLoop env cfg q s).leaveTimer.isSome = true := by
  intro q
  induction q with
  | nil =>
    intro s hq
    simp only [playNextLoop]
    unfold handleEmptyQueue
    cases ht : s.leaveTimer <;> simp [ht, hauto, hq]
  | cons item rest ih =>
    intro s hq
    simp only [playNextLoop]
    rw [playAudio_invalid env _ item (hall item)]
    simpa using ih {s with queue := some rest, nowPlaying := some item} rfl

/-- With every entry failing, each entry is attempted exactly once. -/
theorem playNextAttempts_allfail (env : Env)
    (hall : ∀ x, env.validateOk x = false) :
    ∀ (q : List QueueItem) (s : ChatState), playNextAttempts env q s = q := by
  intro q
  induction q with
  | nil => intro s; rfl
  | cons item rest ih =>
    intro s
    simp only [playNextAttempts]
    rw [playAudio_invalid env _ item (hall item)]
    simpa using ih {s with queue := some rest, nowPlaying := some item}

/-- C8 (counterexample): on the concrete all-fail input the queue does
become empty and the auto-leave task is scheduled, yet the chat does not
transition to Idle: `now_playing` still holds the failed entry and
`QueueManager.is_playing` remains true afterward. -/
theorem failure_drain_not_idle :
    (playNext env2 cfg100 s2).queue = some [] ∧
    (playNext env2 cfg100 s2).leaveTimer.isSome = true ∧
    (playNext env2 cfg100 s2).nowPlaying = some badItem ∧
    queueManagerIsPlaying (playNext env2 cfg100 s2) = true :=
  ⟨rfl, rfl, rfl, rfl⟩

/-- C8 (amended): the prepare-failure path attempts each entry of the
queue at most once and in order (the attempted entries are a prefix of the
queue, hence at most `queue.length` attempts — the recursion depth is
bounded by the queue length and never unbounded); if every entry fails,
each is attempted exactly once and the cascade ends with an empty queue
and a scheduled auto-leave task — but the chat does NOT transition to
Idle: `now_playing` keeps the last failed entry and
`QueueManager.is_playing` stays true. -/
theorem prepare_failure_bounded (env : Env) (cfg : Config)
    (q : List QueueItem) (s : ChatState) (hq : s.queue = some q) :
    (∃ suffix, playNextAttempts env q s ++ suffix = q) ∧
    (playNextAttempts env q s).length ≤ q.length ∧
    ((∀ x, env.validateOk x = false) →
      playNextAttempts env q s = q ∧
      (cfg.autoLeaveVC = true →
        (playNext env cfg s).queue = some [] ∧
        (playNext env cfg s).leaveTimer.isSome = true) ∧
      (q ≠ [] →
        ((playNext env cfg s).nowPlaying).isSome = true ∧
        queueManagerIsPlaying (playNext env cfg s) = true)) := by
  obtain ⟨suf, hsuf⟩ := playNextAttempts_append env q s
  refine ⟨⟨suf, hsuf⟩, ?_, ?_⟩
  · have := congrArg List.length hsuf
    simp only [List.length_append] at this
    omega
  · intro hall
    refine ⟨playNextAttempts_allfail env hall q s, fun hauto => ?_, fun hne => ?_⟩
    · have := playNextLoop_allfail env cfg hall hauto q s hq
      simpa [playNext, hq] using this
    · have hsome : ((playNext env cfg s).nowPlaying).isSome = true := by
        have := playNextLoop_allfail_not_idle env cfg hall q s hne
        simpa [playNext, hq] using this
      exact ⟨hsome, by simp [queueManagerIsPlaying, hsome]⟩

/-- Witness for `prepare_failure_bounded`: the chat `s2` holds the single
failing entry `badItem` under the all-fail environment `env2`. -/
theorem prepare_failure_bounded_witness :
    (∃ suffix, playNextAttempts env2 [badItem] s2 ++ suffix = [badItem]) ∧
    (playNextAttempts env2 [badItem] s2).length ≤ [badItem].length ∧
    ((∀ x, env2.validateOk x = false) →
      playNextAttempts env2 [badItem] s2 = [badItem] ∧
      (cfg100.autoLeaveVC = true →
        (playNext env2 cfg100 s2).queue = some [] ∧
        (playNext env2 cfg100 s2).leaveTimer.isSome = true) ∧
      ([badItem] ≠ [] →
        ((playNext env2 cfg100 s2).nowPlaying).isSome = true ∧
        queueManagerIsPlaying (playNext env2 cfg100 s2) = true)) :=
  prepare_failure_bounded env2 cfg100 [badItem] s2 rfl

/-! ### C10: shuffle and move preserve the multiset of entries -/

/-- Writing `a` over position `m` (which held `b`) and prepending `b` is a
permutation of prepending `a`. -/
theorem cons_set_perm :
    ∀ (l : List QueueItem) (m : Nat) (a b : QueueItem), l[m]? = some b →
      (b :: l.set m a).Perm (a :: l) := by
  intro l
  induction l with
  | nil => intro m a b h; simp at h
  | cons c t ih =>
    intro m a b h
    cases m with
    | zero =>
      simp only [List.getElem?_cons_zero, Option.some.injEq] at h
      subst h
      simpa using List.Perm.swap a c t
    | succ m =>
      simp only [List.getElem?_cons_succ] at h
      have hrec := ih m a b h
      exact ((List.Perm.swap c b _).trans (hrec.cons c)).trans
        (List.Perm.swap a c t)

/-- A Python-style swap of two positions is a permutation. -/
theorem listSwap_perm :
    ∀ (l : List QueueItem) (i j : Nat), (listSwap l i j).Perm l := by
  intro l
  induction l with
  | nil => intro i j; simp [listSwap]
  | cons a t ih =>
    intro i j
    match i, j with
    | 0, 0 =>
      simp [listSwap]
    | 0, m + 1 =>
      cases h : t[m]? with
      | none => simp [listSwap, h]
      | some b =>
        have := cons_set_perm t m a b h
        simpa [listSwap, h] using this
    | n + 1, 0 =>
      cases h : t[n]? with
      | none => simp [listSwap, h]
      | some c =>
        have := cons_set_perm t n a c h
        simpa [listSwap, h] using this
    | n + 1, m + 1 =>
      cases h1 : t[n]? with
      | none => simp [listSwap, h1]
      | some x =>
        cases h2 : t[m]? with
        | none => simp [listSwap, h1, h2]
        | some y =>
          have := ih n m
          simp only [listSwap, h1, h2] at this
          simpa [listSwap, h1, h2] using this.cons a

/-- Every stage of the `random.shuffle` loop preserves the multiset. -/
theorem shuffleSteps_perm (rnd : Nat → Nat) :
    ∀ (n : Nat) (l : List QueueItem), (shuffleSteps rnd n l).Perm l := by
  intro n
  induction n with
  | zero => intro l; simp [shuffleSteps]
  | succ n ih =>
    intro l
    simp only [shuffleSteps]
    exact (ih _).trans (listSwap_perm l (n + 1) (rnd (n + 1) % (n + 2)))

/-- A list is a permutation of the element at a valid position consed onto
the list with that position erased. -/
theorem cons_eraseIdx_perm :
    ∀ (q : List QueueItem) (i : Nat) (a : QueueItem), q[i]? = some a →
      q.Perm (a :: q.eraseIdx i) := by
  intro q
  induction q with
  | nil => intro i a h; simp at h
  | cons c t ih =>
    intro i a h
    cases i with
    | zero =>
      simp only [List.getElem?_cons_zero, Option.some.injEq] at h
      subst h
      simp [List.eraseIdx]
    | succ i =>
      simp only [List.getElem?_cons_succ] at h
      have hrec := ih i a h
      exact (hrec.cons c).trans (List.Perm.swap a c _)

/-- A successful `move_queue_item` permutes the queue: nothing is lost or
duplicated. -/
theorem moveQueueItem_perm (s : ChatState) (q : List QueueItem)
    (fromIdx toIdx : Int) (hq : s.queue = some q)
    (h : (moveQueueItem s fromIdx toIdx).1 = true) :
    ((moveQueueItem s fromIdx toIdx).2.queue.getD []).Perm q := by
  unfold moveQueueItem at h ⊢
  simp only [hq, Option.getD_some] at h ⊢
  split at h
  case isFalse => simp at h
  case isTrue hcond =>
    obtain ⟨hf0, hflen, ht0, htlen, hne⟩ := hcond
    cases hitem : q[fromIdx.toNat]? with
    | none =>
      have hout : q.length ≤ fromIdx.toNat := List.getElem?_eq_none_iff.mp hitem
      omega
    | some item =>
      rw [if_pos ⟨hf0, hflen, ht0, htlen, hne⟩]
      have hfn : fromIdx.toNat < q.length := by omega
      have hlen1 : (q.eraseIdx fromIdx.toNat).length + 1 = q.length :=
        List.length_eraseIdx_add_one hfn
      have htn : toIdx.toNat ≤ (q.eraseIdx fromIdx.toNat).length := by omega
      have h1 : ((q.eraseIdx fromIdx.toNat).insertIdx toIdx.toNat item).Perm
          (item :: q.eraseIdx fromIdx.toNat) :=
        List.perm_insertIdx item _ htn
      have h2 : q.Perm (item :: q.eraseIdx fromIdx.toNat) :=
        cons_eraseIdx_perm q fromIdx.toNat item hitem
      simpa using h1.trans h2.symm

/-- C10: `shuffle_queue` permutes the stored queue (no entry lost or
duplicated, length unchanged) and is a no-op returning `False` on queues of
length at most 1; a successful `move_queue_item` also permutes the queue,
changing only the order. -/
theorem shuffle_move_preserve (rnd : Nat → Nat) (s : ChatState)
    (q : List QueueItem) (fromIdx toIdx : Int) (hq : s.queue = some q) :
    ((shuffleQueue rnd s).2.queue.getD []).Perm q ∧
    ((shuffleQueue rnd s).2.queue.getD []).length = q.length ∧
    (q.length ≤ 1 → shuffleQueue rnd s = (false, s)) ∧
    ((moveQueueItem s fromIdx toIdx).1 = true →
      ((moveQueueItem s fromIdx toIdx).2.queue.getD []).Perm q) := by
  have hperm : ((shuffleQueue rnd s).2.queue.getD []).Perm q := by
    unfold shuffleQueue
    simp only [hq]
    split
    · simpa [randomShuffle] using shuffleSteps_perm rnd (q.length - 1) q
    · simp [hq]
  refine ⟨hperm, hperm.length_eq, ?_, moveQueueItem_perm s q fromIdx toIdx hq⟩
  intro hle
  unfold shuffleQueue
  simp only [hq]
  rw [if_neg (by omega)]

/-- The deterministic draw sequence used by the concrete shuffle witness. -/
def rndZero : Nat → Nat := fun _ => 0

/-- A chat holding the three-entry queue `[itemA, itemB, itemC]`. -/
def sThree : ChatState :=
  ⟨some [itemA, itemB, itemC], none, none, [], 0, none, none, 0⟩

/-- Witness for `shuffle_move_preserve` on a three-entry queue, with the
move conjunct exercised at `from = 0`, `to = 2`. -/
theorem shuffle_move_preserve_witness :
    ((shuffleQueue rndZero sThree).2.queue.getD []).Perm [itemA, itemB, itemC] ∧
    ((shuffleQueue rndZero sThree).2.queue.getD []).length =
      [itemA, itemB, itemC].length ∧
    ([itemA, itemB, itemC].length ≤ 1 →
      shuffleQueue rndZero sThree = (false, sThree)) ∧
    ((moveQueueItem sThree 0 2).1 = true →
      ((moveQueueItem sThree 0 2).2.queue.getD []).Perm [itemA, itemB, itemC]) :=
  shuffle_move_preserve rndZero sThree [itemA, itemB, itemC] 0 2 rfl

end MusicBot
